import Mathlib

/-!
# Verification of the babylogger HTTP logging middleware

Shallow embedding of `babylogger.go` (ANSI-color variant) and the
lipgloss variant of the same package (`logWriter`, `Middleware`,
`Hijack`), together with proofs about the properties the middleware is
documented to have.

Conventions:
* Go strings are Lean `String`s (the delimiters involved, `':'`, `' '`,
  `'\x1b'`, are single-byte ASCII, so byte indexing and char indexing
  agree on the slices taken here).
* Go `int` status codes are `Int`; byte counts returned by an
  `io.Writer` are `Nat` (the `io.Writer` contract guarantees
  `0 <= n <= len(p)`).
* The inner handler's interaction with the capturing writer is a list
  of events: each `WriteHeader` call, and each `Write` call abstracted
  by the `(count, error)` pair the *underlying* writer returned for it.
* Wall-clock timing (`time.Now`, the elapsed-duration field) is outside
  the embedding; log lines are modelled up to that field.
-/

namespace Babylogger

/-- A write error from the underlying writer (abstract; only its
identity matters, never its content). -/
def WriteError := String
deriving Repr, DecidableEq

/-- Go: `type logWriter struct { http.ResponseWriter; code, bytes int }`.
The capture state: status code and byte count observed so far. -/
structure LogWriter where
  code : Int
  bytes : Nat
  deriving Repr, DecidableEq

/-- Go: `func (r *logWriter) Write(p []byte) (int, error)`.
`res` is the `(written, err)` pair returned by the underlying
`ResponseWriter.Write`; the method adds `written` to `bytes` and
returns the underlying pair unchanged. -/
def LogWriter.write (st : LogWriter) (res : Nat × Option WriteError) :
    (Nat × Option WriteError) × LogWriter :=
  (res, { st with bytes := st.bytes + res.1 })

/-- Go: `func (r *logWriter) WriteHeader(code int)`: records `code`
(and forwards to the underlying writer, which keeps no modelled state). -/
def LogWriter.writeHeader (st : LogWriter) (c : Int) : LogWriter :=
  { st with code := c }

/-- One call the inner handler makes on the capturing writer. -/
inductive WEvent
  /-- a `WriteHeader code` call -/
  | writeHeader (code : Int)
  /-- a `Write p` call, abstracted by the `(count, error)` pair the
  underlying writer returned for it -/
  | write (count : Nat) (err : Option WriteError)
  deriving Repr

/-- Apply one handler call to the capture state. -/
def applyEvent (st : LogWriter) : WEvent → LogWriter
  | .writeHeader c => st.writeHeader c
  | .write n e => (st.write (n, e)).2

/-- Run a sequence of handler calls on the capture state. -/
def runEvents (st : LogWriter) (es : List WEvent) : LogWriter :=
  es.foldl applyEvent st

/-- Sum of the counts the underlying writer returned over a call
sequence. -/
def sumWrites : List WEvent → Nat
  | [] => 0
  | .writeHeader _ :: es => sumWrites es
  | .write n _ :: es => n + sumWrites es

/-- The argument of the last `WriteHeader` call in a sequence, if any. -/
def lastWriteHeader : List WEvent → Option Int
  | [] => none
  | e :: es =>
    match lastWriteHeader es with
    | some c => some c
    | none =>
      match e with
      | .writeHeader c => some c
      | .write _ _ => none

/-- The capture state every request starts from: Go initialises
`code: http.StatusOK` (200) and leaves `bytes` at zero. -/
def initWriter : LogWriter := { code := 200, bytes := 0 }

theorem runEvents_code (st : LogWriter) (es : List WEvent) :
    (runEvents st es).code = (lastWriteHeader es).getD st.code := by
  induction es generalizing st with
  | nil => rfl
  | cons e es ih =>
    cases e with
    | writeHeader c =>
      simp only [runEvents, List.foldl_cons, lastWriteHeader]
      rw [show (List.foldl applyEvent (applyEvent st (.writeHeader c)) es)
            = runEvents (applyEvent st (.writeHeader c)) es from rfl, ih]
      cases lastWriteHeader es <;> rfl
    | write n err =>
      simp only [runEvents, List.foldl_cons, lastWriteHeader]
      rw [show (List.foldl applyEvent (applyEvent st (.write n err)) es)
            = runEvents (applyEvent st (.write n err)) es from rfl, ih]
      cases lastWriteHeader es <;> rfl

theorem runEvents_bytes (st : LogWriter) (es : List WEvent) :
    (runEvents st es).bytes = st.bytes + sumWrites es := by
  induction es generalizing st with
  | nil => simp [runEvents, sumWrites]
  | cons e es ih =>
    cases e with
    | writeHeader c =>
      simp only [runEvents, List.foldl_cons, sumWrites]
      exact ih _
    | write n err =>
      simp only [runEvents, List.foldl_cons, sumWrites]
      rw [show (List.foldl applyEvent (applyEvent st (.write n err)) es)
            = runEvents (applyEvent st (.write n err)) es from rfl, ih]
      simp [applyEvent, LogWriter.write]
      omega

theorem runEvents_append (st : LogWriter) (es fs : List WEvent) :
    runEvents st (es ++ fs) = runEvents (runEvents st es) fs := by
  simp [runEvents, List.foldl_append]

/-! ## Decimal rendering (Go's `%d` verb for the values logged here) -/

/-- The character for one decimal digit. -/
def digitChar (d : Nat) : Char :=
  match d with
  | 0 => '0' | 1 => '1' | 2 => '2' | 3 => '3' | 4 => '4'
  | 5 => '5' | 6 => '6' | 7 => '7' | 8 => '8' | 9 => '9'
  | _ => '?'

/-- Accumulate the decimal digits of `n` (most significant first);
`fuel` is a structural bound, `n + 1` always suffices. -/
def natStrAux : Nat → Nat → List Char → List Char
  | 0, _, acc => acc
  | fuel + 1, n, acc =>
    if n < 10 then digitChar (n % 10) :: acc
    else natStrAux fuel (n / 10) (digitChar (n % 10) :: acc)

/-- Decimal rendering of a natural number. -/
def natStr (n : Nat) : String := ⟨natStrAux (n + 1) n []⟩

/-- Decimal rendering of an integer (Go's `%d`). -/
def intStr (i : Int) : String :=
  if i < 0 then "-" ++ natStr i.natAbs else natStr i.natAbs

theorem natStrAux_forall (P : Char → Prop) (hd : ∀ d, P (digitChar d)) :
    ∀ fuel n acc, (∀ c ∈ acc, P c) → ∀ c ∈ natStrAux fuel n acc, P c := by
  intro fuel
  induction fuel with
  | zero => intro n acc hacc c hc; exact hacc c hc
  | succ fuel ih =>
    intro n acc hacc c hc
    simp only [natStrAux] at hc
    split at hc
    · simp only [List.mem_cons] at hc
      rcases hc with h | h
      · exact h ▸ hd _
      · exact hacc c h
    · refine ih _ _ ?_ c hc
      intro c hc
      simp only [List.mem_cons] at hc
      rcases hc with h | h
      · exact h ▸ hd _
      · exact hacc c h

theorem natStr_chars (P : Char → Prop) (hd : ∀ d, P (digitChar d))
    (n : Nat) : ∀ c ∈ (natStr n).data, P c := by
  exact natStrAux_forall P hd _ n [] (by intro c hc; cases hc)

/-! ## Remote-address port stripping

Go (both variants):
`if colon := strings.LastIndex(addr, ":"); colon != -1 { addr = addr[:colon] }`.
`":"` is single-byte ASCII, so the byte index of the last colon equals
the char index, and `addr[:colon]` is `take` at that char index. -/

/-- Index of the last occurrence of `c`, as `strings.LastIndex` computes
it (with `none` for Go's `-1`). -/
def lastIndexOf (c : Char) : List Char → Option Nat
  | [] => none
  | x :: xs =>
    match lastIndexOf c xs with
    | some i => some (i + 1)
    | none => if x = c then some 0 else none

/-- The middleware's remote-address normalisation. -/
def stripPort (addr : String) : String :=
  match lastIndexOf ':' addr.data with
  | some i => ⟨addr.data.take i⟩
  | none => addr

theorem lastIndexOf_eq_none {c : Char} {l : List Char} :
    lastIndexOf c l = none ↔ c ∉ l := by
  induction l with
  | nil => simp [lastIndexOf]
  | cons x xs ih =>
    simp only [lastIndexOf, List.mem_cons]
    cases h : lastIndexOf c xs with
    | some i =>
      have hmem : c ∈ xs := by
        by_contra hc
        rw [ih.mpr hc] at h
        exact Option.noConfusion h
      simp [hmem]
    | none =>
      have hnm : c ∉ xs := ih.mp h
      by_cases hxc : x = c
      · subst hxc
        simp
      · simp only [if_neg hxc]
        simp only [true_iff, not_or, eq_self_iff_true]
        exact ⟨fun he => hxc he.symm, hnm⟩

theorem lastIndexOf_decomp {c : Char} {l : List Char} {i : Nat}
    (h : lastIndexOf c l = some i) :
    ∃ suf, c ∉ suf ∧ l = l.take i ++ c :: suf := by
  induction l generalizing i with
  | nil => simp [lastIndexOf] at h
  | cons x xs ih =>
    simp only [lastIndexOf] at h
    cases hrec : lastIndexOf c xs with
    | some j =>
      simp only [hrec] at h
      obtain rfl : j + 1 = i := Option.some.inj h
      obtain ⟨suf, hsuf, hdecomp⟩ := ih hrec
      refine ⟨suf, hsuf, ?_⟩
      rw [List.take_succ_cons]
      exact congrArg (x :: ·) hdecomp
    | none =>
      simp only [hrec] at h
      by_cases hxc : x = c
      · simp only [hxc, if_pos rfl] at h
        obtain rfl : 0 = i := Option.some.inj h
        exact ⟨xs, lastIndexOf_eq_none.mp hrec, by simp [hxc]⟩
      · simp [hxc] at h

/-! ## Status classification and status text -/

/-- The four color bands of the response-status `if` chain (the source
comments name them `// 200s` … `// 500s`). -/
inductive StatusBand
  | s200
  | s300
  | s400
  | s500
  deriving Repr, DecidableEq

/-- Go (both variants):
`if writer.code < 300 { … } else if writer.code < 400 { … } else if
writer.code < 500 { … } else { … }`. -/
def statusBand (code : Int) : StatusBand :=
  if code < 300 then .s200
  else if code < 400 then .s300
  else if code < 500 then .s400
  else .s500

/-- Modelled from the spec: `http.StatusText`, the standard-library
collaborator mapping a status code to its canonical reason phrase
(empty for unknown codes); only the codes exercised here are tabled. -/
def statusText (code : Int) : String :=
  if code = 200 then "OK"
  else if code = 204 then "No Content"
  else if code = 301 then "Moved Permanently"
  else if code = 307 then "Temporary Redirect"
  else if code = 404 then "Not Found"
  else if code = 500 then "Internal Server Error"
  else if code = 503 then "Service Unavailable"
  else ""

/-! ## Byte-count humanization

Modelled from the spec: the external byte-count humanization
collaborator (`humanize.Bytes`), mapping an integer to a compact
human-readable string in base-1000 units with a space before the unit
("6 B", "1.2 kB"); values below 1000 stay integral, larger values keep
one decimal while below 10 units. The middleware then strips the first
space (`strings.Replace(…, " ", "", 1)`). -/

/-- Unit suffix for base-1000 exponent `e`. -/
def unitStr : Nat → String
  | 0 => "B" | 1 => "kB" | 2 => "MB" | 3 => "GB" | 4 => "TB" | 5 => "PB"
  | _ => "EB"

/-- Largest base-1000 exponent not exceeding `n` (for `n ≥ 1000`;
64-bit counts never reach `1000^7`). -/
def maxExp (n : Nat) : Nat :=
  if n < 1000 ^ 2 then 1
  else if n < 1000 ^ 3 then 2
  else if n < 1000 ^ 4 then 3
  else if n < 1000 ^ 5 then 4
  else if n < 1000 ^ 6 then 5
  else 6

/-- Round a value given in tenths to the nearest integer, ties to even
(Go's `%.0f`). -/
def roundTenths (tenths : Nat) : Nat :=
  if tenths % 10 > 5 then tenths / 10 + 1
  else if tenths % 10 < 5 then tenths / 10
  else if tenths / 10 % 2 = 0 then tenths / 10 else tenths / 10 + 1

/-- The scaled value in tenths of a unit, rounded half up:
`floor(n / 1000^e * 10 + 0.5)` computed exactly. -/
def htenths (n : Nat) : Nat :=
  (20 * n + 1000 ^ maxExp n) / (2 * 1000 ^ maxExp n)

/-- Modelled from the spec: `humanize.Bytes` for a natural byte count. -/
def humanizeBytes (n : Nat) : String :=
  if n < 1000 then natStr n ++ " B"
  else if htenths n < 100 then
    natStr (htenths n / 10) ++ "." ++ natStr (htenths n % 10) ++ " " ++
      unitStr (maxExp n)
  else
    natStr (roundTenths (htenths n)) ++ " " ++ unitStr (maxExp n)

/-- Go: `strings.Replace(s, " ", "", 1)` — drop the first space, if any. -/
def stripFirstSpaceList : List Char → List Char
  | [] => []
  | c :: cs => if c = ' ' then cs else c :: stripFirstSpaceList cs

/-- String form of `stripFirstSpaceList`. -/
def stripFirstSpace (s : String) : String := ⟨stripFirstSpaceList s.data⟩

/-- Boolean space-freeness of a string. -/
def spaceFree (s : String) : Bool := s.data.all (fun c => c != ' ')

theorem stripFirstSpaceList_append {a : List Char} (b : List Char)
    (ha : ∀ c ∈ a, c ≠ ' ') :
    stripFirstSpaceList (a ++ ' ' :: b) = a ++ b := by
  induction a with
  | nil => simp [stripFirstSpaceList]
  | cons x xs ih =>
    have hx : x ≠ ' ' := ha x (List.mem_cons_self x xs)
    simp only [List.cons_append, stripFirstSpaceList, if_neg hx]
    exact congrArg (x :: ·) (ih fun c hc => ha c (List.mem_cons_of_mem x hc))

theorem digitChar_ne_space (d : Nat) : digitChar d ≠ ' ' := by
  unfold digitChar
  split <;> decide

theorem natStr_ne_space (n : Nat) : ∀ c ∈ (natStr n).data, c ≠ ' ' :=
  natStr_chars (fun c => c ≠ ' ') digitChar_ne_space n

theorem unitStr_ne_space (e : Nat) : ∀ c ∈ (unitStr e).data, c ≠ ' ' := by
  unfold unitStr
  split <;> decide

theorem string_data_append (s t : String) :
    (s ++ t).data = s.data ++ t.data := rfl

/-- `humanize.Bytes` output always splits as space-free text, one
space, space-free unit. -/
theorem humanizeBytes_decomp (n : Nat) :
    ∃ a b : List Char, (humanizeBytes n).data = a ++ ' ' :: b ∧
      (∀ c ∈ a, c ≠ ' ') ∧ (∀ c ∈ b, c ≠ ' ') := by
  unfold humanizeBytes
  split
  · exact ⟨(natStr n).data, ['B'], by rw [string_data_append],
      natStr_ne_space n, by decide⟩
  · split
    · refine ⟨(natStr (htenths n / 10)).data ++ '.' ::
          (natStr (htenths n % 10)).data,
        (unitStr (maxExp n)).data, ?_, ?_, unitStr_ne_space _⟩
      · simp only [string_data_append, List.append_assoc]
        rfl
      · intro c hc
        simp only [List.mem_append, List.mem_cons] at hc
        rcases hc with h | h | h
        · exact natStr_ne_space _ c h
        · simp [h]
        · exact natStr_ne_space _ c h
    · refine ⟨(natStr (roundTenths (htenths n))).data,
        (unitStr (maxExp n)).data, ?_, natStr_ne_space _, unitStr_ne_space _⟩
      simp only [string_data_append, List.append_assoc]
      rfl

/-- The middleware's formatted byte count never contains a space. -/
theorem stripFirstSpace_humanize_spaceFree (n : Nat) :
    spaceFree (stripFirstSpace (humanizeBytes n)) = true := by
  obtain ⟨a, b, hdecomp, ha, hb⟩ := humanizeBytes_decomp n
  simp only [spaceFree, stripFirstSpace, hdecomp]
  rw [stripFirstSpaceList_append b ha]
  rw [List.all_append]
  simp only [Bool.and_eq_true, List.all_eq_true, bne_iff_ne, ne_eq]
  exact ⟨ha, hb⟩

/-! ## Connection takeover (lipgloss variant's `logWriter.Hijack`) -/

/-- An abstract raw network connection (`net.Conn`); only its identity
matters. -/
abbrev Conn := Nat

/-- An abstract buffered read-writer (`*bufio.ReadWriter`); only its
identity matters. -/
abbrev BufRW := Nat

/-- The `(net.Conn, *bufio.ReadWriter, error)` triple a hijack call
returns. -/
abbrev HijackResult := Option Conn × Option BufRW × Option String

/-- The underlying response writer, as far as `Hijack` observes it:
the result of the runtime capability query
`r.ResponseWriter.(http.Hijacker)` and, when the capability is present,
the triple the underlying `Hijack()` call returns. -/
structure RespWriter where
  hijacker : Option HijackResult

/-- Go:
`hj, ok := r.ResponseWriter.(http.Hijacker);`
`if !ok { return nil, nil, fmt.Errorf("WebServer does not support hijacking") };`
`return hj.Hijack()`. -/
def hijack (rw : RespWriter) : HijackResult :=
  match rw.hijacker with
  | none => (none, none, some "WebServer does not support hijacking")
  | some t => t

/-! ## The middleware (lipgloss variant)

The inner handler is abstracted as the list of calls it makes on the
capturing writer (`Request → List WEvent`).  Lipgloss style rendering
and the elapsed-duration field are external presentation collaborators
and are left out of the modelled log lines; colorization of the ANSI
variant is modelled separately below for the escape-sequence claims. -/

/-- The request fields the middleware reads (`*http.Request`). -/
structure Request where
  method : String
  requestURI : String
  remoteAddr : String
  deriving Repr, DecidableEq

/-- A Go runtime panic the middleware can hit. -/
inductive Panic
  /-- nil-pointer dereference of the request -/
  | nilDeref
  deriving Repr, DecidableEq

/-- What one middleware invocation produces. -/
structure MResult where
  /-- content of the request log line -/
  requestLine : String
  /-- content of the response log line (duration field omitted) -/
  responseLine : String
  /-- whether `next.ServeHTTP` ran -/
  innerInvoked : Bool
  /-- final capture state -/
  capture : LogWriter
  /-- the colorized status field's band -/
  band : StatusBand
  /-- the `"<code> <text>"` status field -/
  statusField : String
  /-- the formatted byte-count field -/
  bytesField : String
  deriving Repr, DecidableEq

/-- The body of `Middleware`'s handler for a non-nil request: strip the
port from the remote address, log the request line, run the inner
handler against a fresh capture state (`code` defaulted to 200), then
classify the status and format the response line. -/
def middlewareSome (next : Request → List WEvent) (req : Request) :
    MResult :=
  let addr := stripPort req.remoteAddr
  let writer := runEvents initWriter (next req)
  let statusField := intStr writer.code ++ " " ++ statusText writer.code
  let bytesField := stripFirstSpace (humanizeBytes writer.bytes)
  { requestLine := "<- " ++ req.method ++ " " ++ req.requestURI ++ " " ++ addr
    responseLine := "-> " ++ statusField ++ " " ++ bytesField
    innerInvoked := true
    capture := writer
    band := statusBand writer.code
    statusField := statusField
    bytesField := bytesField }

/-- Go's `Middleware` handler on a possibly-nil request.  The very
first statement, `addr := r.RemoteAddr`, dereferences `r`; when `r` is
nil this panics, *before* the `if r == nil` guard further down is ever
reached, so the guard's 500 path is unreachable. -/
def middleware (next : Request → List WEvent) :
    Option Request → Except Panic MResult
  | none => Except.error Panic.nilDeref
  | some req => Except.ok (middlewareSome next req)

/-! ## The ANSI-color variant (`babylogger.go`)

`checkTTY` runs once, when `Middleware` is constructed: when stdout is
not a terminal it empties every entry of the `colors` map.  The `reset`
constant is *not* part of that map.  The palette is modelled as a
function of the TTY check's outcome. -/

/-- Keys of the `colors` map. -/
inductive ColorKey
  | violet | red | yellow | green | cyan | darkGrey | grey
  deriving Repr, DecidableEq

/-- The 256-color number of each palette entry. -/
def colorNum : ColorKey → String
  | .violet => "62"
  | .red => "204"
  | .yellow => "192"
  | .green => "48"
  | .cyan => "86"
  | .darkGrey => "240"
  | .grey => "250"

/-- Go: `reset = "\x1b[0m"`. -/
def resetSeq : String := "\x1b[0m"

/-- The `colors` map after `checkTTY` ran: the original
`"\x1b[38;5;" + n + "m"` entries when stdout is a terminal, all empty
otherwise. -/
def colors (tty : Bool) (k : ColorKey) : String :=
  if tty then "\x1b[38;5;" ++ colorNum k ++ "m" else ""

/-- The palette color of each status band
(`green`/`yellow`/`cyan`/`red` in the response `if` chain). -/
def bandColor : StatusBand → ColorKey
  | .s200 => .green
  | .s300 => .yellow
  | .s400 => .cyan
  | .s500 => .red

/-- Go: `log.Printf("%s %s %s %s%s", arrow, method, uri, address, reset)`
with `arrow = colors[darkGrey] + "<-"`, `method = colors[violet] + r.Method`,
`uri = colors[grey] + r.RequestURI`, `address = colors[darkGrey] + addr`. -/
def requestLineAnsi (tty : Bool) (method uri addr : String) : String :=
  (colors tty .darkGrey ++ "<-") ++ " " ++
  (colors tty .violet ++ method) ++ " " ++
  (colors tty .grey ++ uri) ++ " " ++
  (colors tty .darkGrey ++ addr) ++ resetSeq

/-- Go: `log.Printf("%s %s %s %v%s", arrow, status, bytes, time, reset)`
with `arrow = colors[darkGrey] + "->"`, `status = colors[band] + "%d %s"`,
`bytes = colors[grey] + "%dB"`, `time = colors[darkGrey] + "%v"`. -/
def responseLineAnsi (tty : Bool) (code : Int) (bytes : Nat)
    (timeStr : String) : String :=
  (colors tty .darkGrey ++ "->") ++ " " ++
  (colors tty (bandColor (statusBand code)) ++
    (intStr code ++ " " ++ statusText code)) ++ " " ++
  (colors tty .grey ++ natStr bytes ++ "B") ++ " " ++
  (colors tty .darkGrey ++ timeStr) ++ resetSeq

/-- Remove ANSI SGR escape sequences (`ESC '[' … 'm'`): the flag is
true while inside a sequence. -/
def stripAnsiList : Bool → List Char → List Char
  | _, [] => []
  | true, c :: cs =>
    if c = 'm' then stripAnsiList false cs else stripAnsiList true cs
  | false, c :: cs =>
    if c = '\x1b' then stripAnsiList true cs else c :: stripAnsiList false cs

/-- String form of `stripAnsiList`. -/
def stripAnsi (s : String) : String := ⟨stripAnsiList false s.data⟩

/-- Boolean escape-freeness of a string. -/
def escFree (s : String) : Bool := s.data.all (fun c => c != '\x1b')

theorem stripAnsiList_clean {a : List Char} (t : List Char)
    (ha : ∀ c ∈ a, c ≠ '\x1b') :
    stripAnsiList false (a ++ t) = a ++ stripAnsiList false t := by
  induction a with
  | nil => rfl
  | cons x xs ih =>
    have hx : x ≠ '\x1b' := ha x (List.mem_cons_self x xs)
    simp only [List.cons_append, stripAnsiList, if_neg hx]
    exact congrArg (x :: ·) (ih fun c hc => ha c (List.mem_cons_of_mem x hc))

theorem stripAnsiList_color (k : ColorKey) (t : List Char) :
    stripAnsiList false ((colors true k).data ++ t) = stripAnsiList false t := by
  cases k <;> rfl

theorem stripAnsiList_reset (t : List Char) :
    stripAnsiList false (resetSeq.data ++ t) = stripAnsiList false t := rfl

/-! Log lines of the ANSI variant are interleavings of palette color
codes and plain text segments, closed by `reset`; the next definitions
capture that shape once so both lines share the stripping argument. -/

/-- One segment of a log line: a palette color code or plain text. -/
inductive Seg
  | colorSeg (k : ColorKey)
  | text (s : String)

/-- Render segments for a given TTY state. -/
def renderSegs (tty : Bool) : List Seg → List Char
  | [] => []
  | .colorSeg k :: rest => (colors tty k).data ++ renderSegs tty rest
  | .text s :: rest => s.data ++ renderSegs tty rest

/-- The plain text of a segment list. -/
def textOnly : List Seg → List Char
  | [] => []
  | .colorSeg _ :: rest => textOnly rest
  | .text s :: rest => s.data ++ textOnly rest

/-- All text segments are escape-free. -/
def segsClean (segs : List Seg) : Prop :=
  ∀ s, Seg.text s ∈ segs → ∀ c ∈ s.data, c ≠ '\x1b'

theorem stripAnsiList_renderSegs {segs : List Seg} (t : List Char)
    (h : segsClean segs) :
    stripAnsiList false (renderSegs true segs ++ t)
      = textOnly segs ++ stripAnsiList false t := by
  induction segs with
  | nil => rfl
  | cons seg rest ih =>
    have hrest : segsClean rest :=
      fun s hs => h s (List.mem_cons_of_mem seg hs)
    cases seg with
    | colorSeg k =>
      simp only [renderSegs, textOnly, List.append_assoc]
      rw [stripAnsiList_color, ih hrest]
    | text s =>
      simp only [renderSegs, textOnly, List.append_assoc]
      rw [stripAnsiList_clean _ (h s (List.mem_cons_self _ _)), ih hrest]

theorem renderSegs_false (segs : List Seg) :
    renderSegs false segs = textOnly segs := by
  induction segs with
  | nil => rfl
  | cons seg rest ih =>
    cases seg with
    | colorSeg k => simpa [renderSegs, textOnly, colors] using ih
    | text s => simp only [renderSegs, textOnly, ih]

/-- The request line's segment list. -/
def reqSegs (method uri addr : String) : List Seg :=
  [.colorSeg .darkGrey, .text "<-", .text " ", .colorSeg .violet,
   .text method, .text " ", .colorSeg .grey, .text uri, .text " ",
   .colorSeg .darkGrey, .text addr]

/-- The response line's segment list. -/
def respSegs (code : Int) (bytes : Nat) (timeStr : String) : List Seg :=
  [.colorSeg .darkGrey, .text "->", .text " ",
   .colorSeg (bandColor (statusBand code)), .text (intStr code),
   .text " ", .text (statusText code), .text " ", .colorSeg .grey,
   .text (natStr bytes), .text "B", .text " ", .colorSeg .darkGrey,
   .text timeStr]

theorem requestLineAnsi_data (tty : Bool) (method uri addr : String) :
    (requestLineAnsi tty method uri addr).data
      = renderSegs tty (reqSegs method uri addr) ++ resetSeq.data := by
  simp [requestLineAnsi, reqSegs, renderSegs, string_data_append,
    List.append_assoc]

theorem responseLineAnsi_data (tty : Bool) (code : Int) (bytes : Nat)
    (timeStr : String) :
    (responseLineAnsi tty code bytes timeStr).data
      = renderSegs tty (respSegs code bytes timeStr) ++ resetSeq.data := by
  simp [responseLineAnsi, respSegs, renderSegs, string_data_append,
    List.append_assoc]

theorem natStr_ne_esc (n : Nat) : ∀ c ∈ (natStr n).data, c ≠ '\x1b' :=
  natStr_chars (fun c => c ≠ '\x1b') (by intro d; unfold digitChar; split <;> decide) n

theorem intStr_ne_esc (i : Int) : ∀ c ∈ (intStr i).data, c ≠ '\x1b' := by
  unfold intStr
  split
  · intro c hc
    rw [string_data_append] at hc
    rcases List.mem_append.mp hc with h | h
    · rw [show ("-" : String).data = ['-'] from rfl, List.mem_singleton] at h
      subst h
      decide
    · exact natStr_ne_esc _ c h
  · exact natStr_ne_esc _

theorem statusText_ne_esc (code : Int) :
    ∀ c ∈ (statusText code).data, c ≠ '\x1b' := by
  unfold statusText
  split_ifs <;> decide

/-- Convert the boolean `escFree` into the `∀` form the lemmas use. -/
theorem escFree_iff {s : String} :
    escFree s = true ↔ ∀ c ∈ s.data, c ≠ '\x1b' := by
  simp [escFree, List.all_eq_true]

/-! ## Claims -/

/-- C1: for every request, the logged status code equals the last
status the inner handler set via `WriteHeader`, and equals 200 if the
inner handler never set one (last write wins when set several times). -/
theorem claim_C1 (next : Request → List WEvent) (req : Request) :
    (middlewareSome next req).capture.code
      = (lastWriteHeader (next req)).getD 200 := by
  show (runEvents initWriter (next req)).code = _
  rw [runEvents_code]
  rfl

/-- C2: after any sequence of write calls, the capture's `bytesWritten`
is the sum of the counts the underlying writer returned (partial writes
included), and it never decreases as the sequence extends. -/
theorem claim_C2 (es pre suf : List WEvent) :
    (runEvents initWriter es).bytes = sumWrites es ∧
    (runEvents initWriter pre).bytes
      ≤ (runEvents initWriter (pre ++ suf)).bytes := by
  constructor
  · rw [runEvents_bytes]
    simp [initWriter]
  · rw [runEvents_append, runEvents_bytes (runEvents initWriter pre) suf]
    omega

/-- C3: each status code lands in exactly one of the four bands, with
[100,300) in the success band, [300,400) redirect, [400,500) client
error, [500,∞) server error, and the listed values and boundary pairs
fall where the claim says. -/
theorem claim_C3 :
    (∀ c : Int, 100 ≤ c → c < 300 → statusBand c = .s200) ∧
    (∀ c : Int, 300 ≤ c → c < 400 → statusBand c = .s300) ∧
    (∀ c : Int, 400 ≤ c → c < 500 → statusBand c = .s400) ∧
    (∀ c : Int, 500 ≤ c → statusBand c = .s500) ∧
    statusBand 204 = .s200 ∧ statusBand 301 = .s300 ∧
    statusBand 404 = .s400 ∧ statusBand 503 = .s500 ∧
    statusBand 299 = .s200 ∧ statusBand 300 = .s300 ∧
    statusBand 399 = .s300 ∧ statusBand 400 = .s400 ∧
    statusBand 499 = .s400 ∧ statusBand 500 = .s500 := by
  refine ⟨fun c h1 h2 => ?_, fun c h1 h2 => ?_, fun c h1 h2 => ?_,
    fun c h1 => ?_, by decide, by decide, by decide, by decide,
    by decide, by decide, by decide, by decide, by decide, by decide⟩ <;>
    · simp only [statusBand]
      split_ifs <;> first | rfl | omega

/-- C3 witness: 204 is inside [100,300) and lands in the success band. -/
theorem claim_C3_witness :
    (100 : Int) ≤ 204 ∧ (204 : Int) < 300 ∧ statusBand 204 = .s200 :=
  ⟨by decide, by decide, claim_C3.1 204 (by decide) (by decide)⟩

/-- C4: the logged remote address is the prefix of the address up to
(excluding) its last colon when a colon is present (the dropped
remainder holds no further colon), and the unchanged address when no
colon is present; "10.0.0.5:54321" becomes "10.0.0.5". -/
theorem claim_C4 (addr : String) :
    (':' ∈ addr.data →
      ∃ suf : List Char, ':' ∉ suf ∧
        addr.data = (stripPort addr).data ++ ':' :: suf) ∧
    (':' ∉ addr.data → stripPort addr = addr) ∧
    stripPort "10.0.0.5:54321" = "10.0.0.5" := by
  refine ⟨?_, ?_, by decide⟩
  · intro hmem
    cases h : lastIndexOf ':' addr.data with
    | none => exact absurd (lastIndexOf_eq_none.mp h) (by simp [hmem])
    | some i =>
      obtain ⟨suf, hsuf, hdecomp⟩ := lastIndexOf_decomp h
      refine ⟨suf, hsuf, ?_⟩
      rw [show stripPort addr = ⟨addr.data.take i⟩ by simp [stripPort, h]]
      exact hdecomp
  · intro hmem
    simp [stripPort, lastIndexOf_eq_none.mpr hmem]

/-- C4 witness: "10.0.0.5:54321" contains a colon and splits as the
kept prefix, the last colon, and a colon-free remainder. -/
theorem claim_C4_witness :
    ':' ∈ "10.0.0.5:54321".data ∧
    ∃ suf : List Char, ':' ∉ suf ∧
      "10.0.0.5:54321".data
        = (stripPort "10.0.0.5:54321").data ++ ':' :: suf :=
  ⟨by decide, (claim_C4 "10.0.0.5:54321").1 (by decide)⟩

/-- C5: evaluating `Middleware` at a nil request.  The first statement,
`addr := r.RemoteAddr`, dereferences the nil request, so the invocation
panics; the `if r == nil` guard further down (write 500 through the
original writer, set the capture's status to 500, log a 500 response
line) is unreachable and none of it happens. -/
theorem claim_C5 (next : Request → List WEvent) :
    middleware next none = Except.error Panic.nilDeref := rfl

/-- C6: each write call returns to the caller exactly the
`(count, error)` pair the underlying writer produced — the error is
surfaced unchanged and the count is not altered — while the capture
only accumulates the count. -/
theorem claim_C6 (st : LogWriter) (res : Nat × Option WriteError) :
    (st.write res).1 = res ∧
    (st.write res).2.bytes = st.bytes + res.1 ∧
    (st.write res).2.code = st.code :=
  ⟨rfl, rfl, rfl⟩

theorem reqSegs_clean {method uri addr : String}
    (hm : ∀ c ∈ method.data, c ≠ '\x1b')
    (hu : ∀ c ∈ uri.data, c ≠ '\x1b')
    (ha : ∀ c ∈ addr.data, c ≠ '\x1b') :
    segsClean (reqSegs method uri addr) := by
  intro s hs
  simp only [reqSegs, List.mem_cons, List.not_mem_nil, or_false] at hs
  rcases hs with h|h|h|h|h|h|h|h|h|h|h <;>
    first
      | exact Seg.noConfusion h
      | (injection h with h; subst h;
         first | decide | exact hm | exact hu | exact ha)

theorem respSegs_clean {timeStr : String} {code : Int} {bytes : Nat}
    (ht : ∀ c ∈ timeStr.data, c ≠ '\x1b') :
    segsClean (respSegs code bytes timeStr) := by
  intro s hs
  simp only [respSegs, List.mem_cons, List.not_mem_nil, or_false] at hs
  rcases hs with h|h|h|h|h|h|h|h|h|h|h|h|h|h <;>
    first
      | exact Seg.noConfusion h
      | (injection h with h; subst h;
         first
           | decide
           | exact ht
           | exact intStr_ne_esc code
           | exact statusText_ne_esc code
           | exact natStr_ne_esc bytes)

/-- C7 counterexample: with stdout not a terminal, the request line
for GET "/" from "1.2.3.4" is *not* byte-for-byte the colorized line
with all ANSI escape sequences removed — the non-terminal line still
ends with the `reset` sequence `ESC[0m`, which `checkTTY` never
empties (it only empties the `colors` map). -/
theorem claim_C7_counterexample :
    requestLineAnsi false "GET" "/" "1.2.3.4"
      ≠ stripAnsi (requestLineAnsi true "GET" "/" "1.2.3.4") := by
  decide

/-- C7 amended: when stdout is not a terminal every palette color code
is the empty string, and each emitted line equals the colorized line
with all ANSI escape sequences removed *followed by one trailing reset
sequence* `ESC[0m` (the `reset` constant is appended outside the
palette and survives `checkTTY`); the textual content is unaffected. -/
theorem claim_C7 (method uri addr timeStr : String) (code : Int)
    (bytes : Nat)
    (hm : escFree method = true) (hu : escFree uri = true)
    (ha : escFree addr = true) (ht : escFree timeStr = true) :
    (∀ k, colors false k = "") ∧
    requestLineAnsi false method uri addr
      = stripAnsi (requestLineAnsi true method uri addr) ++ resetSeq ∧
    responseLineAnsi false code bytes timeStr
      = stripAnsi (responseLineAnsi true code bytes timeStr) ++ resetSeq := by
  refine ⟨fun k => rfl, ?_, ?_⟩
  · apply String.ext
    rw [string_data_append, requestLineAnsi_data false, renderSegs_false]
    rw [show (stripAnsi (requestLineAnsi true method uri addr)).data
          = stripAnsiList false (requestLineAnsi true method uri addr).data
        from rfl]
    rw [requestLineAnsi_data true,
      stripAnsiList_renderSegs resetSeq.data
        (reqSegs_clean (escFree_iff.mp hm) (escFree_iff.mp hu)
          (escFree_iff.mp ha)),
      show stripAnsiList false resetSeq.data = [] from rfl,
      List.append_nil]
  · apply String.ext
    rw [string_data_append, responseLineAnsi_data false, renderSegs_false]
    rw [show (stripAnsi (responseLineAnsi true code bytes timeStr)).data
          = stripAnsiList false (responseLineAnsi true code bytes timeStr).data
        from rfl]
    rw [responseLineAnsi_data true,
      stripAnsiList_renderSegs resetSeq.data
        (respSegs_clean (escFree_iff.mp ht)),
      show stripAnsiList false resetSeq.data = [] from rfl,
      List.append_nil]

/-- C7 witness: the amended relation at GET "/" from "1.2.3.4",
status 200, 6 bytes, duration "1ms". -/
theorem claim_C7_witness :
    escFree "GET" = true ∧ escFree "/" = true ∧
    escFree "1.2.3.4" = true ∧ escFree "1ms" = true ∧
    requestLineAnsi false "GET" "/" "1.2.3.4"
      = stripAnsi (requestLineAnsi true "GET" "/" "1.2.3.4") ++ resetSeq :=
  ⟨by decide, by decide, by decide, by decide,
    (claim_C7 "GET" "/" "1.2.3.4" "1ms" 200 6 (by decide) (by decide)
      (by decide) (by decide)).2.1⟩

/-- C8: a takeover call on the capturing writer delegates to the
underlying writer's capability when present and returns its result
unchanged; when the capability is absent it returns no connection, no
buffer, and the unsupported-operation error. -/
theorem claim_C8 :
    (∀ (w : RespWriter) (t : HijackResult),
        w.hijacker = some t → hijack w = t) ∧
    (∀ w : RespWriter, w.hijacker = none →
        hijack w
          = (none, none, some "WebServer does not support hijacking")) := by
  constructor
  · intro w t h
    simp [hijack, h]
  · intro w h
    simp [hijack, h]

/-- C8 witness: a writer whose underlying hijack yields connection 3
and buffer 7 delegates; a writer without the capability errors. -/
theorem claim_C8_witness :
    (RespWriter.mk (some (some 3, some 7, none))).hijacker
        = some (some 3, some 7, none) ∧
    hijack (RespWriter.mk (some (some 3, some 7, none)))
        = (some 3, some 7, none) ∧
    (RespWriter.mk none).hijacker = none ∧
    hijack (RespWriter.mk none)
        = (none, none, some "WebServer does not support hijacking") :=
  ⟨rfl, claim_C8.1 _ _ rfl, rfl, claim_C8.2 _ rfl⟩

/-- C9: the response line's byte-count field is the humanized byte
count with its space removed — it never contains a space — and in
particular 6 bytes renders as "6B" and 0 bytes as "0B". -/
theorem claim_C9 (next : Request → List WEvent) (req : Request) :
    (middlewareSome next req).bytesField
      = stripFirstSpace
          (humanizeBytes (middlewareSome next req).capture.bytes) ∧
    spaceFree (middlewareSome next req).bytesField = true ∧
    ((middlewareSome next req).capture.bytes = 6 →
      (middlewareSome next req).bytesField = "6B") ∧
    ((middlewareSome next req).capture.bytes = 0 →
      (middlewareSome next req).bytesField = "0B") := by
  refine ⟨rfl, stripFirstSpace_humanize_spaceFree _, ?_, ?_⟩
  · intro h
    show stripFirstSpace
        (humanizeBytes (middlewareSome next req).capture.bytes) = "6B"
    rw [h]
    decide
  · intro h
    show stripFirstSpace
        (humanizeBytes (middlewareSome next req).capture.bytes) = "0B"
    rw [h]
    decide

/-- C9 witness: a handler that makes one write of 6 bytes yields the
byte-count field "6B". -/
theorem claim_C9_witness :
    (middlewareSome (fun _ => [WEvent.write 6 none])
        ⟨"GET", "/", "127.0.0.1:9999"⟩).capture.bytes = 6 ∧
    (middlewareSome (fun _ => [WEvent.write 6 none])
        ⟨"GET", "/", "127.0.0.1:9999"⟩).bytesField = "6B" :=
  ⟨rfl, (claim_C9 (fun _ => [WEvent.write 6 none])
    ⟨"GET", "/", "127.0.0.1:9999"⟩).2.2.1 rfl⟩

/-- C10: at a nil request the invocation panics on the remote-address
dereference before the capture state is even created, so no result is
produced at all: the synthesized 500 response, the "0B" byte count and
the response log line the claim describes never happen. -/
theorem claim_C10 (next : Request → List WEvent) :
    middleware next none = Except.error Panic.nilDeref ∧
    (middleware next none).toOption = none :=
  ⟨rfl, rfl⟩

end Babylogger
